import Mathlib

/-!
Verification of the keyboard interaction manager of the keyboardist
repository (file src/keyboard-manager.ts), as a shallow embedding.

Scene nodes become a tree of named objects with a vertical position;
the mutable fields of KeyboardManager become an explicit state record;
the fire-and-forget calls to the tweening engine, the audio engine and
the indicator material become an emitted command list.  The completion
callback of the power-button animation timeline becomes an explicit
event that is only effective while a scheduled timeline is pending.
-/

namespace Keyboardist

/-- JS list-of-characters test that pat occurs at the start of a list
(used to implement the substring test of String.prototype.includes). -/
def leadsWith : List Char → List Char → Bool
  | [], _ => true
  | _ :: _, [] => false
  | a :: as, b :: bs => a = b && leadsWith as bs

/-- pat occurs somewhere (contiguously) in the list. -/
def containsSeq (pat : List Char) : List Char → Bool
  | [] => leadsWith pat []
  | c :: cs => leadsWith pat (c :: cs) || containsSeq pat cs

/-- JS String.prototype.includes: s contains pat as a substring. -/
def strContains (s pat : String) : Bool := containsSeq pat.data s.data

/-- JS String.prototype.split with separator underscore, on the character
list of the string. -/
def splitOnUnderscore : List Char → List (List Char)
  | [] => [[]]
  | c :: cs =>
    let rest := splitOnUnderscore cs
    if c = '_' then [] :: rest
    else
      match rest with
      | [] => [[c]]
      | seg :: segs => (c :: seg) :: segs

/-- Source line: const name = object.name.split("_")[1]; if (!name) return.
The note identifier is the second split segment; a missing second segment
(undefined) and an empty second segment are both falsy in JS, so both are
unresolvable. -/
def keyNoteOf (objName : String) : Option String :=
  match (splitOnUnderscore objName.data)[1]? with
  | none => none
  | some cs => if cs = [] then none else some (String.mk cs)

/-- A three.js scene node: a name, a vertical (y) position and child nodes. -/
inductive Obj where
  | mk (name : String) (posY : ℚ) (children : List Obj)

def Obj.name : Obj → String
  | .mk n _ _ => n

def Obj.posY : Obj → ℚ
  | .mk _ p _ => p

def Obj.children : Obj → List Obj
  | .mk _ _ cs => cs

mutual

/-- three.js Object3D.getObjectByName: depth-first search for a node with
the given name, checking the node itself first, then its children in order. -/
def Obj.getByName : Obj → String → Option Obj
  | .mk n p cs, target =>
    if n = target then some (.mk n p cs) else getByNameList cs target

def getByNameList : List Obj → String → Option Obj
  | [], _ => none
  | o :: os, target =>
    match o.getByName target with
    | some r => some r
    | none => getByNameList os target

end

/-- Commands issued to the external effectors: audio attack and release
(Tone polySynth), position animation (gsap tween toward a target y over a
duration in seconds), and the power indicator material colour change. -/
inductive Command where
  | attack (note : String)
  | release (note : String)
  | animateTo (objName : String) (durationS : ℚ) (targetY : ℚ)
  | setIndicator (color : String)
deriving DecidableEq

/-- The mutable fields of KeyboardManager.  pressedKeys and restPositions
match the source fields directly; pressedButtons models the JS Set as a
duplicate-free list; powerAnimPending records the name captured by the
onComplete callback of a scheduled power-button timeline (none when no
timeline with such a callback is in flight). -/
structure KMState where
  pressedKeys : List String
  pressedButtons : List String
  restPositions : List (String × ℚ)
  powerOn : Bool
  powerAnimPending : Option String
deriving DecidableEq

/-- The 25 fixed note identifiers enumerated in setup. -/
def noteNames : List String :=
  ["C3", "C#3", "D3", "D#3", "E3", "F3", "F#3", "G3", "G#3", "A3", "A#3",
   "B3", "C4", "C#4", "D4", "D#4", "E4", "F4", "F#4", "G4", "G#4", "A4",
   "A#4", "B4", "C5"]

/-- KeyboardManager.setup: cache the rest y position of every note whose
node Key_name is found in the keyboard, in list order, then of the power
button node when found.  Nodes not found are silently skipped. -/
def setup (kb : Obj) : List (String × ℚ) :=
  let keyRests := noteNames.filterMap (fun key =>
    (kb.getByName ("Key_" ++ key)).map (fun o => (key, o.posY)))
  match kb.getByName "powerButton" with
  | some pb => keyRests ++ [("powerButton", pb.posY)]
  | none => keyRests

/-- State right after the KeyboardManager constructor ran setup. -/
def initState (kb : Obj) : KMState :=
  { pressedKeys := []
    pressedButtons := []
    restPositions := setup kb
    powerOn := false
    powerAnimPending := none }

/-- The timeline scheduling step of pressPowerButton.  The source guards
with a JS truthiness test on the looked-up rest position, so a timeline
(press tween, return tween, onComplete callback) is scheduled only when
the rest position is present and nonzero; otherwise nothing is scheduled
and any previously pending callback is left as it was. -/
def powerSched (rp : List (String × ℚ)) (pending : Option String)
    (bname : String) : Option String × List Command :=
  match rp.lookup bname with
  | some restPosition =>
    if restPosition = 0 then (pending, [])
    else
      (some bname,
       [Command.animateTo bname (2/10) (restPosition - 2/1000),
        Command.animateTo bname (2/10) restPosition])
  | none => (pending, [])

/-- The indicator material update of pressPowerButton: emitted when the
second child of the powerButtonHousing node exists, green when the power
is now on, red otherwise. -/
def ledCmdsOf (kb : Obj) (powerOn : Bool) : List Command :=
  match (kb.getByName "powerButtonHousing").bind (fun h => h.children[1]?) with
  | some _ => [Command.setIndicator (if powerOn then "green" else "red")]
  | none => []

/-- KeyboardManager.pressPowerButton.  Debounce on pressedButtons; then
flip powerOn, add the button name, schedule the press timeline per
powerSched, and emit the indicator colour change per ledCmdsOf. -/
def pressPowerButton (kb : Obj) (st : KMState) (button : Obj) :
    KMState × List Command :=
  if button.name ∈ st.pressedButtons then (st, [])
  else
    ({ st with
        powerOn := !st.powerOn,
        pressedButtons := button.name :: st.pressedButtons,
        powerAnimPending :=
          (powerSched st.restPositions st.powerAnimPending button.name).1 },
     (powerSched st.restPositions st.powerAnimPending button.name).2 ++
       ledCmdsOf kb (!st.powerOn))

/-- KeyboardManager.pressKey.  Resolve the note identifier from the node
name; no-op when unresolvable or already pressed; otherwise push the note,
animate toward rest minus the press amount when a rest position is cached
(smaller amount for names containing the sharp marker), and trigger the
audio attack only when the power is on. -/
def pressKey (st : KMState) (object : Obj) : KMState × List Command :=
  match keyNoteOf object.name with
  | none => (st, [])
  | some name =>
    if name ∈ st.pressedKeys then (st, [])
    else
      let animCmds : List Command :=
        match st.restPositions.lookup name with
        | some restPosition =>
          [Command.animateTo object.name (3/10)
            (restPosition - (if strContains name "#" then 5/1000 else 1/100))]
        | none => []
      let audioCmds : List Command :=
        if st.powerOn then [Command.attack name] else []
      ({ st with pressedKeys := st.pressedKeys ++ [name] },
       animCmds ++ audioCmds)

/-- KeyboardManager.onIntersectObject: switch on the node name; the power
button name takes the power path, otherwise a name containing Key takes
the key path, otherwise nothing happens. -/
def onIntersectObject (kb : Obj) (st : KMState) (object : Obj) :
    KMState × List Command :=
  if object.name = "powerButton" then pressPowerButton kb st object
  else if strContains object.name "Key" then pressKey st object
  else (st, [])

/-- Commands emitted for one pressed note during resetKeys: the audio
release, then the return-to-rest tween when the node Key_key is found and
a rest position is cached for key. -/
def releaseCmdsFor (kb : Obj) (rp : List (String × ℚ)) (key : String) :
    List Command :=
  Command.release key ::
    (match kb.getByName ("Key_" ++ key), rp.lookup key with
     | some _, some restPosition =>
       [Command.animateTo ("Key_" ++ key) (3/10) restPosition]
     | _, _ => [])

/-- KeyboardManager.resetKeys: for every pressed note, release the audio
and tween the node back to its cached rest position, then clear the whole
pressed list at once. -/
def resetKeys (kb : Obj) (st : KMState) : KMState × List Command :=
  ({ st with pressedKeys := [] },
   st.pressedKeys.flatMap (releaseCmdsFor kb st.restPositions))

/-- The onComplete callback of the power-button timeline: delete the
captured name from pressedButtons.  Effective only while a scheduled
timeline is pending; with no pending timeline there is no callback to run. -/
def powerAnimComplete (st : KMState) : KMState :=
  match st.powerAnimPending with
  | some name =>
    { st with pressedButtons := st.pressedButtons.erase name,
              powerAnimPending := none }
  | none => st

/-- The discrete inputs the manager reacts to: a pointer-down raycast hit
on a node, the pointer-up release, and the completion callback of the
power-button animation timeline. -/
inductive Event where
  | intersect (object : Obj)
  | pointerUp
  | animDone

/-- One input event processed by the manager. -/
def step (kb : Obj) (st : KMState) : Event → KMState × List Command
  | .intersect o => onIntersectObject kb st o
  | .pointerUp => resetKeys kb st
  | .animDone => (powerAnimComplete st, [])

/-- Process a list of events, collecting all emitted commands in order. -/
def run (kb : Obj) (st : KMState) : List Event → KMState × List Command
  | [] => (st, [])
  | e :: es =>
    ((run kb (step kb st e).1 es).1,
     (step kb st e).2 ++ (run kb (step kb st e).1 es).2)

/-- States reachable from the freshly constructed manager by some event
sequence. -/
def Reachable (kb : Obj) (st : KMState) : Prop :=
  ∃ evs : List Event, (run kb (initState kb) evs).1 = st

/-! Concrete scenes and nodes used by witnesses and counterexamples. -/

/-- A small keyboard scene: a natural key, a sharp key, the power button
and the housing whose second child is the indicator led. -/
def wKeyboard : Obj :=
  Obj.mk "keyboard" 0
    [Obj.mk "Key_C3" 1 [],
     Obj.mk "Key_C#3" 2 [],
     Obj.mk "powerButton" 3 [],
     Obj.mk "powerButtonHousing" 0 [Obj.mk "casing" 0 [], Obj.mk "led" 0 []]]

/-- A keyboard scene with no interactive nodes at all. -/
def wEmpty : Obj := Obj.mk "keyboard" 0 []

def wKeyC3 : Obj := Obj.mk "Key_C3" 1 []

def wKeyCS3 : Obj := Obj.mk "Key_C#3" 2 []

def wPowerButton : Obj := Obj.mk "powerButton" 3 []

/-- A node whose name contains Key but has no second underscore segment. -/
def wBadKey : Obj := Obj.mk "Key" 0 []

/-- A non-interactive node. -/
def wMisc : Obj := Obj.mk "casing" 0 []

/-- A state with two keys held, the power on and the sample scene's rest
positions cached. -/
def wPressedState : KMState :=
  { pressedKeys := ["C3", "C#3"]
    pressedButtons := []
    restPositions := setup wKeyboard
    powerOn := true
    powerAnimPending := none }

/-- A state with the power on and no cached rest positions. -/
def wOnState : KMState :=
  { pressedKeys := []
    pressedButtons := []
    restPositions := []
    powerOn := true
    powerAnimPending := none }

/-- A state whose cached rest position for the power button is 0, the
falsy value of the JS truthiness guard. -/
def wZeroState : KMState :=
  { pressedKeys := []
    pressedButtons := []
    restPositions := [("powerButton", 0)]
    powerOn := false
    powerAnimPending := none }

/-! Characterizations of the single operations. -/

theorem pressKey_noNote {st : KMState} {o : Obj}
    (h : keyNoteOf o.name = none) : pressKey st o = (st, []) := by
  simp [pressKey, h]

theorem pressKey_memNote {st : KMState} {o : Obj} {nm : String}
    (h : keyNoteOf o.name = some nm) (hm : nm ∈ st.pressedKeys) :
    pressKey st o = (st, []) := by
  simp [pressKey, h, hm]

theorem pressKey_fresh {st : KMState} {o : Obj} {nm : String}
    (h : keyNoteOf o.name = some nm) (hf : nm ∉ st.pressedKeys) :
    pressKey st o =
      ({ st with pressedKeys := st.pressedKeys ++ [nm] },
       (match st.restPositions.lookup nm with
        | some r =>
          [Command.animateTo o.name (3/10)
            (r - (if strContains nm "#" then 5/1000 else 1/100))]
        | none => []) ++
       (if st.powerOn then [Command.attack nm] else [])) := by
  simp [pressKey, h, hf]

theorem pressKey_state (st : KMState) (o : Obj) :
    (pressKey st o).1.powerOn = st.powerOn ∧
    (pressKey st o).1.pressedButtons = st.pressedButtons ∧
    (pressKey st o).1.restPositions = st.restPositions ∧
    (pressKey st o).1.powerAnimPending = st.powerAnimPending := by
  cases h : keyNoteOf o.name with
  | none => simp [pressKey_noNote h]
  | some nm =>
    by_cases hm : nm ∈ st.pressedKeys
    · simp [pressKey_memNote h hm]
    · simp [pressKey_fresh h hm]

theorem pressKey_keys_mono {st : KMState} {o : Obj} {x : String}
    (hx : x ∈ st.pressedKeys) : x ∈ (pressKey st o).1.pressedKeys := by
  cases h : keyNoteOf o.name with
  | none => simpa [pressKey_noNote h] using hx
  | some nm =>
    by_cases hm : nm ∈ st.pressedKeys
    · simpa [pressKey_memNote h hm] using hx
    · simp [pressKey_fresh h hm]
      exact Or.inl hx

theorem pressKey_attack_not_mem {st : KMState} {o : Obj} {x : String}
    (hx : x ∈ st.pressedKeys) : Command.attack x ∉ (pressKey st o).2 := by
  cases h : keyNoteOf o.name with
  | none => simp [pressKey_noNote h]
  | some nm =>
    by_cases hm : nm ∈ st.pressedKeys
    · simp [pressKey_memNote h hm]
    · rw [pressKey_fresh h hm]
      simp only [List.mem_append]
      rintro (hc | hc)
      · rcases hr : st.restPositions.lookup nm with _ | r <;>
          simp [hr] at hc
      · rcases hp : st.powerOn <;> simp [hp] at hc
        exact hm (hc ▸ hx)

theorem powerSched_falsy {rp : List (String × ℚ)} {pending : Option String}
    {bname : String}
    (h : rp.lookup bname = none ∨ rp.lookup bname = some 0) :
    powerSched rp pending bname = (pending, []) := by
  rcases h with h | h <;> simp [powerSched, h]

theorem powerSched_no_attack (rp : List (String × ℚ))
    (pending : Option String) (bname : String) (x : String) :
    Command.attack x ∉ (powerSched rp pending bname).2 := by
  unfold powerSched
  rcases h : rp.lookup bname with _ | r
  · simp
  · by_cases hz : r = 0 <;> simp [hz]

theorem ledCmdsOf_no_attack (kb : Obj) (p : Bool) (x : String) :
    Command.attack x ∉ ledCmdsOf kb p := by
  unfold ledCmdsOf
  split <;> simp

theorem ledCmdsOf_no_animate (kb : Obj) (p : Bool) (nm : String)
    (d y : ℚ) : Command.animateTo nm d y ∉ ledCmdsOf kb p := by
  unfold ledCmdsOf
  split <;> simp

theorem ppb_mem {kb : Obj} {st : KMState} {b : Obj}
    (h : b.name ∈ st.pressedButtons) :
    pressPowerButton kb st b = (st, []) := by
  simp [pressPowerButton, h]

theorem ppb_fresh {kb : Obj} {st : KMState} {b : Obj}
    (h : b.name ∉ st.pressedButtons) :
    pressPowerButton kb st b =
      ({ st with
          powerOn := !st.powerOn,
          pressedButtons := b.name :: st.pressedButtons,
          powerAnimPending :=
            (powerSched st.restPositions st.powerAnimPending b.name).1 },
       (powerSched st.restPositions st.powerAnimPending b.name).2 ++
         ledCmdsOf kb (!st.powerOn)) := by
  simp [pressPowerButton, h]

theorem ppb_state (kb : Obj) (st : KMState) (b : Obj) :
    (pressPowerButton kb st b).1.pressedKeys = st.pressedKeys ∧
    (pressPowerButton kb st b).1.restPositions = st.restPositions := by
  by_cases h : b.name ∈ st.pressedButtons
  · simp [ppb_mem h]
  · simp [ppb_fresh h]

theorem ppb_no_attack (kb : Obj) (st : KMState) (b : Obj) (x : String) :
    Command.attack x ∉ (pressPowerButton kb st b).2 := by
  by_cases h : b.name ∈ st.pressedButtons
  · simp [ppb_mem h]
  · rw [ppb_fresh h]
    simp only [List.mem_append]
    rintro (hc | hc)
    · exact powerSched_no_attack _ _ _ _ hc
    · exact ledCmdsOf_no_attack _ _ _ hc

theorem onIntersect_power {kb : Obj} {st : KMState} {o : Obj}
    (h : o.name = "powerButton") :
    onIntersectObject kb st o = pressPowerButton kb st o := by
  simp [onIntersectObject, h]

theorem onIntersect_key {kb : Obj} {st : KMState} {o : Obj}
    (h1 : o.name ≠ "powerButton") (h2 : strContains o.name "Key" = true) :
    onIntersectObject kb st o = pressKey st o := by
  simp [onIntersectObject, h1, h2]

theorem onIntersect_miss {kb : Obj} {st : KMState} {o : Obj}
    (h1 : o.name ≠ "powerButton") (h2 : strContains o.name "Key" = false) :
    onIntersectObject kb st o = (st, []) := by
  simp [onIntersectObject, h1, h2]

theorem resetKeys_fst (kb : Obj) (st : KMState) :
    (resetKeys kb st).1 = { st with pressedKeys := [] } := rfl

theorem powerAnimComplete_state (st : KMState) :
    (powerAnimComplete st).pressedKeys = st.pressedKeys ∧
    (powerAnimComplete st).powerOn = st.powerOn ∧
    (powerAnimComplete st).restPositions = st.restPositions := by
  unfold powerAnimComplete
  split <;> simp

theorem powerAnimComplete_none {st : KMState}
    (h : st.powerAnimPending = none) : powerAnimComplete st = st := by
  simp [powerAnimComplete, h]

/-! Step and run level lemmas. -/

theorem step_intersect (kb : Obj) (st : KMState) (o : Obj) :
    step kb st (Event.intersect o) = onIntersectObject kb st o := rfl

theorem step_pointerUp (kb : Obj) (st : KMState) :
    step kb st Event.pointerUp = resetKeys kb st := rfl

theorem step_animDone (kb : Obj) (st : KMState) :
    step kb st Event.animDone = (powerAnimComplete st, []) := rfl

theorem run_nil (kb : Obj) (st : KMState) : run kb st [] = (st, []) := rfl

theorem run_cons (kb : Obj) (st : KMState) (e : Event) (es : List Event) :
    run kb st (e :: es) =
      ((run kb (step kb st e).1 es).1,
       (step kb st e).2 ++ (run kb (step kb st e).1 es).2) := rfl

theorem run_preserve (kb : Obj) (P : KMState → Prop)
    (hstep : ∀ st e, P st → P (step kb st e).1) :
    ∀ (evs : List Event) (st : KMState), P st → P (run kb st evs).1 := by
  intro evs
  induction evs with
  | nil => intro st h; simpa [run_nil] using h
  | cons e es ih =>
    intro st h
    rw [run_cons]
    exact ih _ (hstep st e h)

theorem step_nodup {kb : Obj} {st : KMState} {e : Event}
    (h : st.pressedKeys.Nodup) : (step kb st e).1.pressedKeys.Nodup := by
  cases e with
  | intersect o =>
    rw [step_intersect]
    by_cases hp : o.name = "powerButton"
    · rw [onIntersect_power hp, (ppb_state kb st o).1]
      exact h
    · by_cases hk : strContains o.name "Key"
      · rw [onIntersect_key hp hk]
        cases hn : keyNoteOf o.name with
        | none => simpa [pressKey_noNote hn] using h
        | some nm =>
          by_cases hm : nm ∈ st.pressedKeys
          · simpa [pressKey_memNote hn hm] using h
          · simp [pressKey_fresh hn hm, List.nodup_append, h, hm]
      · rw [onIntersect_miss hp (by simpa using hk)]
        exact h
  | pointerUp => simp [step_pointerUp, resetKeys_fst]
  | animDone =>
    rw [step_animDone]
    show (powerAnimComplete st).pressedKeys.Nodup
    rw [(powerAnimComplete_state st).1]
    exact h

theorem reach_nodup {kb : Obj} {st : KMState} (h : Reachable kb st) :
    st.pressedKeys.Nodup := by
  obtain ⟨evs, rfl⟩ := h
  exact run_preserve kb (fun s => s.pressedKeys.Nodup)
    (fun _ _ hh => step_nodup hh) evs _ (by simp [initState])

theorem step_heldKey {kb : Obj} {st : KMState} {e : Event} {x : String}
    (hx : x ∈ st.pressedKeys) (he : e ≠ Event.pointerUp) :
    x ∈ (step kb st e).1.pressedKeys ∧
    Command.attack x ∉ (step kb st e).2 := by
  cases e with
  | intersect o =>
    rw [step_intersect]
    by_cases hp : o.name = "powerButton"
    · rw [onIntersect_power hp]
      exact ⟨(ppb_state kb st o).1 ▸ hx, ppb_no_attack kb st o x⟩
    · by_cases hk : strContains o.name "Key"
      · rw [onIntersect_key hp hk]
        exact ⟨pressKey_keys_mono hx, pressKey_attack_not_mem hx⟩
      · rw [onIntersect_miss hp (by simpa using hk)]
        exact ⟨hx, by simp⟩
  | pointerUp => exact absurd rfl he
  | animDone =>
    rw [step_animDone]
    exact ⟨(powerAnimComplete_state st).1 ▸ hx, by simp⟩

theorem run_heldKey {kb : Obj} :
    ∀ {evs : List Event} {st : KMState} {x : String},
      x ∈ st.pressedKeys → (∀ e ∈ evs, e ≠ Event.pointerUp) →
      x ∈ (run kb st evs).1.pressedKeys ∧
      Command.attack x ∉ (run kb st evs).2 := by
  intro evs
  induction evs with
  | nil => intro st x hx _; simp [run_nil, hx]
  | cons e es ih =>
    intro st x hx hall
    have h1 := @step_heldKey kb st e x hx (hall e (by simp))
    have h2 := ih h1.1 (fun e' he' => hall e' (by simp [he']))
    rw [run_cons]
    refine ⟨h2.1, ?_⟩
    simp only [List.mem_append]
    rintro (hc | hc)
    · exact h1.2 hc
    · exact h2.2 hc

theorem step_heldPower {kb : Obj} {st : KMState} {e : Event}
    (hm : "powerButton" ∈ st.pressedButtons) (he : e ≠ Event.animDone) :
    "powerButton" ∈ (step kb st e).1.pressedButtons ∧
    (step kb st e).1.powerOn = st.powerOn := by
  cases e with
  | intersect o =>
    rw [step_intersect]
    by_cases hp : o.name = "powerButton"
    · rw [onIntersect_power hp, ppb_mem (by rwa [hp])]
      exact ⟨hm, rfl⟩
    · by_cases hk : strContains o.name "Key"
      · rw [onIntersect_key hp hk]
        exact ⟨(pressKey_state st o).2.1 ▸ hm, (pressKey_state st o).1⟩
      · rw [onIntersect_miss hp (by simpa using hk)]
        exact ⟨hm, rfl⟩
  | pointerUp => exact ⟨by simpa [step_pointerUp, resetKeys_fst] using hm, rfl⟩
  | animDone => exact absurd rfl he

theorem run_heldPower {kb : Obj} :
    ∀ {evs : List Event} {st : KMState},
      "powerButton" ∈ st.pressedButtons →
      (∀ e ∈ evs, e ≠ Event.animDone) →
      "powerButton" ∈ (run kb st evs).1.pressedButtons ∧
      (run kb st evs).1.powerOn = st.powerOn := by
  intro evs
  induction evs with
  | nil => intro st hm _; simp [run_nil, hm]
  | cons e es ih =>
    intro st hm hall
    have h1 := @step_heldPower kb st e hm (hall e (by simp))
    have h2 := ih h1.1 (fun e' he' => hall e' (by simp [he']))
    rw [run_cons]
    exact ⟨h2.1, h2.2.trans h1.2⟩

theorem step_stuckPower {kb : Obj} {st : KMState} {e : Event}
    (hm : "powerButton" ∈ st.pressedButtons)
    (hp : st.powerAnimPending = none) :
    "powerButton" ∈ (step kb st e).1.pressedButtons ∧
    (step kb st e).1.powerAnimPending = none ∧
    (step kb st e).1.powerOn = st.powerOn := by
  cases e with
  | intersect o =>
    rw [step_intersect]
    by_cases hpb : o.name = "powerButton"
    · rw [onIntersect_power hpb, ppb_mem (by rwa [hpb])]
      exact ⟨hm, hp, rfl⟩
    · by_cases hk : strContains o.name "Key"
      · rw [onIntersect_key hpb hk]
        exact ⟨(pressKey_state st o).2.1 ▸ hm,
               (pressKey_state st o).2.2.2.trans hp, (pressKey_state st o).1⟩
      · rw [onIntersect_miss hpb (by simpa using hk)]
        exact ⟨hm, hp, rfl⟩
  | pointerUp => exact ⟨by simpa [step_pointerUp, resetKeys_fst] using hm,
                        by simpa [step_pointerUp, resetKeys_fst] using hp, rfl⟩
  | animDone =>
    rw [step_animDone, powerAnimComplete_none hp]
    exact ⟨hm, hp, rfl⟩

theorem run_stuckPower {kb : Obj} {evs : List Event} {st : KMState}
    (hm : "powerButton" ∈ st.pressedButtons)
    (hp : st.powerAnimPending = none) :
    "powerButton" ∈ (run kb st evs).1.pressedButtons ∧
    (run kb st evs).1.powerAnimPending = none ∧
    (run kb st evs).1.powerOn = st.powerOn := by
  have := run_preserve kb
    (fun s => "powerButton" ∈ s.pressedButtons ∧
      s.powerAnimPending = none ∧ s.powerOn = st.powerOn)
    (fun s e hh => by
      obtain ⟨h1, h2, h3⟩ := hh
      obtain ⟨g1, g2, g3⟩ := @step_stuckPower kb s e h1 h2
      exact ⟨g1, g2, g3.trans h3⟩)
    evs st ⟨hm, hp, rfl⟩
  exact this

/-! Association list and counting lemmas. -/

theorem lookup_cons_self {k : String} {v : ℚ} {es : List (String × ℚ)} :
    ((k, v) :: es).lookup k = some v := by
  simp [List.lookup]

theorem lookup_cons_ne {k a : String} {v : ℚ} {es : List (String × ℚ)}
    (h : a ≠ k) : ((k, v) :: es).lookup a = es.lookup a := by
  have hb : (a == k) = false := beq_eq_false_iff_ne.mpr h
  simp [List.lookup, hb]

theorem lookup_eq_none_of_keys {l : List (String × ℚ)} {k : String}
    (h : ∀ p ∈ l, p.1 ≠ k) : l.lookup k = none := by
  induction l with
  | nil => rfl
  | cons p ps ih =>
    obtain ⟨k', v'⟩ := p
    have hne : k ≠ k' := fun he => h (k', v') (by simp) (by simp [he])
    rw [lookup_cons_ne hne]
    exact ih (fun q hq => h q (by simp [hq]))

theorem keyName_inj {a b : String}
    (h : ("Key_" ++ a : String) = "Key_" ++ b) : a = b := by
  have hd := congrArg String.data h
  rw [String.data_append, String.data_append] at hd
  exact String.ext (List.append_cancel_left hd)

theorem setup_keys_mem {kb : Obj} {p : String × ℚ} (hp : p ∈ setup kb) :
    p.1 ∈ noteNames ∨ p.1 = "powerButton" := by
  have main : ∀ q ∈ noteNames.filterMap (fun key =>
      (kb.getByName ("Key_" ++ key)).map (fun o => (key, o.posY))),
      (q : String × ℚ).1 ∈ noteNames := by
    intro q hq
    obtain ⟨a, ha, he⟩ := List.mem_filterMap.mp hq
    obtain ⟨o, _, rfl⟩ := Option.map_eq_some'.mp he
    exact ha
  unfold setup at hp
  rcases hpb : kb.getByName "powerButton" with _ | pb <;> rw [hpb] at hp
  · exact Or.inl (main p hp)
  · rcases List.mem_append.mp hp with hl | hr
    · exact Or.inl (main p hl)
    · simp at hr
      right
      rw [hr]

theorem setup_lookup_pb_none {kb : Obj}
    (h : kb.getByName "powerButton" = none) :
    (setup kb).lookup "powerButton" = none := by
  unfold setup
  rw [h]
  apply lookup_eq_none_of_keys
  intro p hp
  obtain ⟨a, ha, he⟩ := List.mem_filterMap.mp hp
  obtain ⟨o, _, rfl⟩ := Option.map_eq_some'.mp he
  intro hcontra
  have : ("powerButton" : String) ∈ noteNames := by
    rw [← hcontra]; exact ha
  revert this
  decide

theorem count_release_self (kb : Obj) (rp : List (String × ℚ))
    (key : String) :
    (releaseCmdsFor kb rp key).count (Command.release key) = 1 := by
  unfold releaseCmdsFor
  split <;> simp [List.count_cons]

theorem count_release_other (kb : Obj) (rp : List (String × ℚ))
    {k key : String} (h : key ≠ k) :
    (releaseCmdsFor kb rp k).count (Command.release key) = 0 := by
  unfold releaseCmdsFor
  split <;> simp [List.count_cons, h.symm]

theorem count_animate_self (kb : Obj) (rp : List (String × ℚ))
    {key : String} {o : Obj} {r : ℚ}
    (ho : kb.getByName ("Key_" ++ key) = some o)
    (hr : rp.lookup key = some r) :
    (releaseCmdsFor kb rp key).count
      (Command.animateTo ("Key_" ++ key) (3/10) r) = 1 := by
  unfold releaseCmdsFor
  rw [ho, hr]
  simp [List.count_cons]

theorem count_animate_other (kb : Obj) (rp : List (String × ℚ))
    {k key : String} (r : ℚ) (h : key ≠ k) :
    (releaseCmdsFor kb rp k).count
      (Command.animateTo ("Key_" ++ key) (3/10) r) = 0 := by
  have hne : ("Key_" ++ k : String) ≠ "Key_" ++ key :=
    fun hc => (Ne.symm h) (keyName_inj hc)
  unfold releaseCmdsFor
  split <;> simp [List.count_cons, hne]

theorem count_flatMap_release_zero {kb : Obj} {rp : List (String × ℚ)} :
    ∀ {keys : List String} {key : String}, key ∉ keys →
      (keys.flatMap (releaseCmdsFor kb rp)).count (Command.release key)
        = 0 := by
  intro keys
  induction keys with
  | nil => simp
  | cons k ks ih =>
    intro key hnot
    rw [List.flatMap_cons, List.count_append]
    have h1 : key ≠ k := fun he => hnot (by simp [he])
    rw [count_release_other kb rp h1, ih (fun hm => hnot (by simp [hm]))]

theorem count_flatMap_release {kb : Obj} {rp : List (String × ℚ)} :
    ∀ {keys : List String} {key : String}, keys.Nodup → key ∈ keys →
      (keys.flatMap (releaseCmdsFor kb rp)).count (Command.release key)
        = 1 := by
  intro keys
  induction keys with
  | nil => simp
  | cons k ks ih =>
    intro key hnd hmem
    rw [List.flatMap_cons, List.count_append]
    rcases List.mem_cons.mp hmem with rfl | hmem2
    · rw [count_release_self,
          count_flatMap_release_zero (List.nodup_cons.mp hnd).1]
    · have hne : key ≠ k := by
        rintro rfl
        exact (List.nodup_cons.mp hnd).1 hmem2
      rw [count_release_other kb rp hne,
          ih (List.nodup_cons.mp hnd).2 hmem2]

theorem count_flatMap_animate_zero {kb : Obj} {rp : List (String × ℚ)}
    {r : ℚ} :
    ∀ {keys : List String} {key : String}, key ∉ keys →
      (keys.flatMap (releaseCmdsFor kb rp)).count
        (Command.animateTo ("Key_" ++ key) (3/10) r) = 0 := by
  intro keys
  induction keys with
  | nil => simp
  | cons k ks ih =>
    intro key hnot
    rw [List.flatMap_cons, List.count_append]
    have h1 : key ≠ k := fun he => hnot (by simp [he])
    rw [count_animate_other kb rp r h1, ih (fun hm => hnot (by simp [hm]))]

theorem count_flatMap_animate {kb : Obj} {rp : List (String × ℚ)} :
    ∀ {keys : List String} {key : String} {o : Obj} {r : ℚ}, keys.Nodup →
      key ∈ keys → kb.getByName ("Key_" ++ key) = some o →
      rp.lookup key = some r →
      (keys.flatMap (releaseCmdsFor kb rp)).count
        (Command.animateTo ("Key_" ++ key) (3/10) r) = 1 := by
  intro keys
  induction keys with
  | nil => simp
  | cons k ks ih =>
    intro key o r hnd hmem ho hr
    rw [List.flatMap_cons, List.count_append]
    rcases List.mem_cons.mp hmem with rfl | hmem2
    · rw [count_animate_self kb rp ho hr,
          count_flatMap_animate_zero (List.nodup_cons.mp hnd).1]
    · have hne : key ≠ k := by
        rintro rfl
        exact (List.nodup_cons.mp hnd).1 hmem2
      rw [count_animate_other kb rp r hne,
          ih (List.nodup_cons.mp hnd).2 hmem2 ho hr]

theorem run_replicate_noop {kb : Obj} {st : KMState} {e : Event}
    (h : step kb st e = (st, [])) :
    ∀ n : Nat, run kb st (List.replicate n e) = (st, []) := by
  intro n
  induction n with
  | zero => simp [run_nil]
  | succ m ih =>
    rw [List.replicate_succ, run_cons, h]
    simpa using ih

theorem setup_wKeyboard :
    setup wKeyboard = [("C3", 1), ("C#3", 2), ("powerButton", 3)] := by
  simp [setup, noteNames, wKeyboard, Obj.getByName, getByNameList, Obj.posY]

theorem setup_wEmpty : setup wEmpty = [] := rfl

/-! The claims. -/

/-- C8: handleIntersectedObject classifies every node as follows: a node
whose name equals powerButton takes the power-button path; otherwise a
node whose name contains the substring Key takes the key path, where a
name with no segment after the first underscore is unresolvable and a
no-op; every other node leaves all state unchanged and issues no
commands. -/
theorem C8_classification (kb : Obj) (st : KMState) (o : Obj) :
    (o.name = "powerButton" →
      onIntersectObject kb st o = pressPowerButton kb st o) ∧
    (o.name ≠ "powerButton" → strContains o.name "Key" = true →
      onIntersectObject kb st o = pressKey st o ∧
      (keyNoteOf o.name = none → onIntersectObject kb st o = (st, []))) ∧
    (o.name ≠ "powerButton" → strContains o.name "Key" = false →
      onIntersectObject kb st o = (st, [])) := by
  refine ⟨fun h => onIntersect_power h,
          fun h1 h2 => ⟨onIntersect_key h1 h2, fun hn => ?_⟩,
          fun h1 h2 => onIntersect_miss h1 h2⟩
  rw [onIntersect_key h1 h2, pressKey_noNote hn]

/-- Witness for C8 at concrete nodes: the power button, a proper key, a
key-marked node with no underscore segment, and a non-interactive node. -/
theorem C8_classification_w :
    onIntersectObject wKeyboard (initState wKeyboard) wPowerButton
      = pressPowerButton wKeyboard (initState wKeyboard) wPowerButton ∧
    onIntersectObject wKeyboard (initState wKeyboard) wKeyC3
      = pressKey (initState wKeyboard) wKeyC3 ∧
    onIntersectObject wKeyboard (initState wKeyboard) wBadKey
      = ((initState wKeyboard), []) ∧
    onIntersectObject wKeyboard (initState wKeyboard) wMisc
      = ((initState wKeyboard), []) :=
  ⟨(C8_classification wKeyboard (initState wKeyboard) wPowerButton).1 rfl,
   ((C8_classification wKeyboard (initState wKeyboard) wKeyC3).2.1
     (by decide) (by decide)).1,
   ((C8_classification wKeyboard (initState wKeyboard) wBadKey).2.1
     (by decide) (by decide)).2 (by decide),
   (C8_classification wKeyboard (initState wKeyboard) wMisc).2.2
     (by decide) (by decide)⟩

/-- C9: key presses and power-button presses are mutually independent:
the key path never modifies PowerState, PressedButtonSet, the pending
animation flag or the rest-position table, and the power-button path
never modifies PressedKeySet or the rest-position table; neither path
reads the other path's state components, stated as invariance of each
path under arbitrary changes to the other path's components, so keys
remain pressable while the power animation is in flight and the power
button remains pressable while keys are held. -/
theorem C9_independence (kb : Obj) (st : KMState) (o b : Obj)
    (pk bs : List String) (pend : Option String) :
    (pressKey st o).1.powerOn = st.powerOn ∧
    (pressKey st o).1.pressedButtons = st.pressedButtons ∧
    (pressKey st o).1.restPositions = st.restPositions ∧
    (pressKey st o).1.powerAnimPending = st.powerAnimPending ∧
    (pressPowerButton kb st b).1.pressedKeys = st.pressedKeys ∧
    (pressPowerButton kb st b).1.restPositions = st.restPositions ∧
    (pressKey { st with pressedButtons := bs, powerAnimPending := pend } o
      = ({ (pressKey st o).1 with
           pressedButtons := bs,
           powerAnimPending := pend }, (pressKey st o).2)) ∧
    (pressPowerButton kb { st with pressedKeys := pk } b
      = ({ (pressPowerButton kb st b).1 with
           pressedKeys := pk }, (pressPowerButton kb st b).2)) := by
  have hkk : pressKey { st with pressedButtons := bs, powerAnimPending := pend } o
        = ({ (pressKey st o).1 with
             pressedButtons := bs,
             powerAnimPending := pend }, (pressKey st o).2) := by
    cases hn : keyNoteOf o.name with
    | none =>
      rw [@pressKey_noNote
            { st with pressedButtons := bs, powerAnimPending := pend } o hn,
          @pressKey_noNote st o hn]
    | some nm =>
      by_cases hm : nm ∈ st.pressedKeys
      · rw [@pressKey_memNote
              { st with pressedButtons := bs, powerAnimPending := pend } o nm
              hn hm,
            @pressKey_memNote st o nm hn hm]
      · rw [@pressKey_fresh
              { st with pressedButtons := bs, powerAnimPending := pend } o nm
              hn hm,
            @pressKey_fresh st o nm hn hm]
  have hpp : pressPowerButton kb { st with pressedKeys := pk } b
      = ({ (pressPowerButton kb st b).1 with
           pressedKeys := pk }, (pressPowerButton kb st b).2) := by
    by_cases hb : b.name ∈ st.pressedButtons
    · rw [@ppb_mem kb { st with pressedKeys := pk } b hb, @ppb_mem kb st b hb]
    · rw [@ppb_fresh kb { st with pressedKeys := pk } b hb,
          @ppb_fresh kb st b hb]
  exact ⟨(pressKey_state st o).1, (pressKey_state st o).2.1,
         (pressKey_state st o).2.2.1, (pressKey_state st o).2.2.2,
         (ppb_state kb st b).1, (ppb_state kb st b).2, hkk, hpp⟩

theorem initState_pressedKeys (kb : Obj) : (initState kb).pressedKeys = [] :=
  rfl

theorem initState_pressedButtons (kb : Obj) :
    (initState kb).pressedButtons = [] := rfl

theorem initState_powerOn (kb : Obj) : (initState kb).powerOn = false := rfl

theorem initState_pending (kb : Obj) :
    (initState kb).powerAnimPending = none := rfl

theorem initState_restPositions (kb : Obj) :
    (initState kb).restPositions = setup kb := rfl

theorem lookup_wkb_C3 : (setup wKeyboard).lookup "C3" = some 1 := by
  rw [setup_wKeyboard]
  simp [List.lookup]

theorem lookup_wkb_CS3 : (setup wKeyboard).lookup "C#3" = some 2 := by
  rw [setup_wKeyboard]
  simp [List.lookup]

theorem lookup_wkb_pb : (setup wKeyboard).lookup "powerButton" = some 3 := by
  rw [setup_wKeyboard]
  simp [List.lookup]

/-- C7: for every accepted key press with a cached rest position, the
animation command issued targets the rest position minus the press depth,
where the press depth is the smaller fixed magnitude 5/1000 (0.005) when
the note identifier contains the accidental marker and the larger fixed
magnitude 1/100 (0.01) otherwise; the only other command possibly issued
by the press is the audio attack when the power is on. -/
theorem C7_pressDepth (st : KMState) (o : Obj) (nm : String) (r : ℚ)
    (hn : keyNoteOf o.name = some nm) (hf : nm ∉ st.pressedKeys)
    (hr : st.restPositions.lookup nm = some r) :
    (pressKey st o).2 =
      Command.animateTo o.name (3/10)
          (r - (if strContains nm "#" then 5/1000 else 1/100)) ::
        (if st.powerOn then [Command.attack nm] else []) := by
  simp [pressKey_fresh hn hf, hr]

/-- Witness for C7: in the sample scene, the sharp key uses press depth
5/1000 from its rest position 2 and the natural key uses press depth
1/100 from its rest position 1. -/
theorem C7_pressDepth_w :
    (pressKey (initState wKeyboard) wKeyCS3).2 =
      [Command.animateTo "Key_C#3" (3/10) (2 - 5/1000)] ∧
    (pressKey (initState wKeyboard) wKeyC3).2 =
      [Command.animateTo "Key_C3" (3/10) (1 - 1/100)] := by
  have h1 := C7_pressDepth (initState wKeyboard) wKeyCS3 "C#3" 2 (by decide)
    (by simp [initState_pressedKeys]) lookup_wkb_CS3
  have h2 := C7_pressDepth (initState wKeyboard) wKeyC3 "C3" 1 (by decide)
    (by simp [initState_pressedKeys]) lookup_wkb_C3
  constructor
  · simpa [initState_powerOn] using h1
  · simpa [initState_powerOn] using h2

/-- C6 counterexample: in a scene with no key nodes, no rest position is
cached for C3 at setup; pressing the node named powerButton first turns
the power on, and a press of a node named Key_C3 is then still accepted:
C3 is appended to PressedKeySet and its audio attack command is issued,
contradicting the claim that such a press is never added and produces no
audio command. -/
theorem C6_noRest_cex :
    (run wEmpty (initState wEmpty)
      [Event.intersect wPowerButton, Event.intersect wKeyC3]).1.pressedKeys
      = ["C3"] ∧
    (run wEmpty (initState wEmpty)
      [Event.intersect wPowerButton, Event.intersect wKeyC3]).2.count
      (Command.attack "C3") = 1 := by
  constructor <;>
    simp [run_cons, run_nil, step_intersect, onIntersectObject,
      pressPowerButton, pressKey, powerSched, ledCmdsOf, initState, wEmpty,
      wPowerButton, wKeyC3, Obj.name, Obj.getByName, getByNameList,
      Obj.children, keyNoteOf, strContains, containsSeq, leadsWith,
      splitOnUnderscore, List.lookup, setup, noteNames, List.count_cons]

/-- C6 (amended): for every note identifier whose scene node was not
found at setup (hence no rest position is cached), an accepted press of
that identifier produces no animation command; however the identifier is
still appended to PressedKeySet and, when PowerState is on at the press,
the audio attack command is still issued. -/
theorem C6_noRest (kb : Obj) (st : KMState) (o : Obj) (nm : String)
    (hname : o.name ≠ "powerButton")
    (hkey : strContains o.name "Key" = true)
    (hn : keyNoteOf o.name = some nm) (hf : nm ∉ st.pressedKeys)
    (hr : st.restPositions.lookup nm = none) :
    (onIntersectObject kb st o).1.pressedKeys = st.pressedKeys ++ [nm] ∧
    (onIntersectObject kb st o).2
      = (if st.powerOn then [Command.attack nm] else []) := by
  rw [onIntersect_key hname hkey]
  constructor
  · simp [pressKey_fresh hn hf]
  · simp [pressKey_fresh hn hf, hr]

/-- Witness for C6: pressing the Key_C3 node in the empty scene appends
C3 and issues no command at all (power is off). -/
theorem C6_noRest_w :
    (onIntersectObject wEmpty (initState wEmpty) wKeyC3).1.pressedKeys
      = ["C3"] ∧
    (onIntersectObject wEmpty (initState wEmpty) wKeyC3).2 = [] := by
  have h := C6_noRest wEmpty (initState wEmpty) wKeyC3 "C3" (by decide)
    (by decide) (by decide) (by simp [initState_pressedKeys]) rfl
  simpa [initState_pressedKeys, initState_powerOn] using h

/-- C2: pressing the power button when its identifier is not in
PressedButtonSet flips PowerState exactly once and inserts the
identifier into PressedButtonSet; any further power-button press before
the animation completion callback (the animDone event) removes the
identifier is a complete no-op: the state is unchanged, no commands are
issued, and PowerState is not flipped again. -/
theorem C2_powerDebounce (kb : Obj) (st : KMState) (b : Obj)
    (evs : List Event) (hb : b.name = "powerButton")
    (hfresh : "powerButton" ∉ st.pressedButtons)
    (hnd : ∀ e ∈ evs, e ≠ Event.animDone) :
    (onIntersectObject kb st b).1.powerOn = !st.powerOn ∧
    "powerButton" ∈ (onIntersectObject kb st b).1.pressedButtons ∧
    (run kb (onIntersectObject kb st b).1 evs).1.powerOn = !st.powerOn ∧
    onIntersectObject kb (run kb (onIntersectObject kb st b).1 evs).1 b
      = ((run kb (onIntersectObject kb st b).1 evs).1, []) := by
  have hb' : b.name ∉ st.pressedButtons := by rwa [hb]
  have h1 : (onIntersectObject kb st b).1.powerOn = !st.powerOn := by
    rw [onIntersect_power hb, ppb_fresh hb']
  have h2 : "powerButton" ∈ (onIntersectObject kb st b).1.pressedButtons := by
    rw [onIntersect_power hb, ppb_fresh hb']
    simp [hb]
  have hrun := @run_heldPower kb evs (onIntersectObject kb st b).1 h2 hnd
  refine ⟨h1, h2, by rw [hrun.2, h1], ?_⟩
  rw [onIntersect_power hb]
  exact ppb_mem (by rw [hb]; exact hrun.1)

/-- Witness for C2: in the sample scene, the first power press turns the
power on, a key press in between does not disturb the debounce, and the
second power press before the completion callback is a no-op. -/
theorem C2_powerDebounce_w :
    (onIntersectObject wKeyboard (initState wKeyboard) wPowerButton).1.powerOn
      = true ∧
    "powerButton" ∈ (onIntersectObject wKeyboard (initState wKeyboard)
      wPowerButton).1.pressedButtons ∧
    (run wKeyboard
      (onIntersectObject wKeyboard (initState wKeyboard) wPowerButton).1
      [Event.intersect wKeyC3]).1.powerOn = true ∧
    onIntersectObject wKeyboard
        (run wKeyboard
          (onIntersectObject wKeyboard (initState wKeyboard) wPowerButton).1
          [Event.intersect wKeyC3]).1 wPowerButton
      = ((run wKeyboard
          (onIntersectObject wKeyboard (initState wKeyboard) wPowerButton).1
          [Event.intersect wKeyC3]).1, []) := by
  have h := C2_powerDebounce wKeyboard (initState wKeyboard) wPowerButton
    [Event.intersect wKeyC3] rfl (by simp [initState_pressedButtons])
    (by
      intro e he
      simp at he
      subst he
      exact fun hh => Event.noConfusion hh)
  simpa [initState_powerOn] using h

/-- Shared helper for the falsy-rest-position power press: the press
flips the power and inserts the identifier, schedules nothing, and the
manager is then stuck for every following event sequence. -/
theorem falsyPressStuck (kb : Obj) (st : KMState) (b : Obj)
    (evs : List Event) (hb : b.name = "powerButton")
    (hfresh : "powerButton" ∉ st.pressedButtons)
    (hpend : st.powerAnimPending = none)
    (hfalsy : st.restPositions.lookup "powerButton" = none ∨
      st.restPositions.lookup "powerButton" = some 0) :
    (onIntersectObject kb st b).1.powerOn = !st.powerOn ∧
    "powerButton" ∈ (onIntersectObject kb st b).1.pressedButtons ∧
    (∀ nm d y, Command.animateTo nm d y ∉ (onIntersectObject kb st b).2) ∧
    (onIntersectObject kb st b).1.powerAnimPending = none ∧
    (run kb (onIntersectObject kb st b).1 evs).1.powerOn = !st.powerOn ∧
    onIntersectObject kb (run kb (onIntersectObject kb st b).1 evs).1 b
      = ((run kb (onIntersectObject kb st b).1 evs).1, []) := by
  have hb' : b.name ∉ st.pressedButtons := by rwa [hb]
  have hsched : powerSched st.restPositions st.powerAnimPending b.name
      = (st.powerAnimPending, []) :=
    powerSched_falsy (by rwa [hb])
  have hstep : onIntersectObject kb st b
      = ({ st with
            powerOn := !st.powerOn,
            pressedButtons := b.name :: st.pressedButtons },
         ledCmdsOf kb (!st.powerOn)) := by
    rw [onIntersect_power hb, ppb_fresh hb', hsched]
    rfl
  have h1 : (onIntersectObject kb st b).1.powerOn = !st.powerOn := by
    rw [hstep]
  have h2 : "powerButton" ∈ (onIntersectObject kb st b).1.pressedButtons := by
    rw [hstep]
    simp [hb]
  have h4 : (onIntersectObject kb st b).1.powerAnimPending = none := by
    rw [hstep]
    exact hpend
  have hstuck := @run_stuckPower kb evs (onIntersectObject kb st b).1 h2 h4
  refine ⟨h1, h2, ?_, h4, by rw [hstuck.2.2, h1], ?_⟩
  · intro nm d y
    rw [hstep]
    exact ledCmdsOf_no_animate kb _ nm d y
  · rw [onIntersect_power hb]
    exact ppb_mem (by rw [hb]; exact hstuck.1)

/-- C10: if, when the power button is first pressed, its cached rest
position is absent or equal to 0 (the falsy values of the JS guard),
then PowerState is still flipped and powerButton is inserted into
PressedButtonSet, but no animation command is issued and no completion
callback becomes pending; consequently, for every subsequent event
sequence (even one containing completion events) the identifier stays in
PressedButtonSet, every further power-button press is a no-op, and
PowerState never changes again. -/
theorem C10_falsyRestStuck (kb : Obj) (st : KMState) (b : Obj)
    (evs : List Event) (hb : b.name = "powerButton")
    (hfresh : "powerButton" ∉ st.pressedButtons)
    (hpend : st.powerAnimPending = none)
    (hfalsy : st.restPositions.lookup "powerButton" = none ∨
      st.restPositions.lookup "powerButton" = some 0) :
    (onIntersectObject kb st b).1.powerOn = !st.powerOn ∧
    "powerButton" ∈ (onIntersectObject kb st b).1.pressedButtons ∧
    (∀ nm d y, Command.animateTo nm d y ∉ (onIntersectObject kb st b).2) ∧
    (onIntersectObject kb st b).1.powerAnimPending = none ∧
    (run kb (onIntersectObject kb st b).1 evs).1.powerOn = !st.powerOn ∧
    onIntersectObject kb (run kb (onIntersectObject kb st b).1 evs).1 b
      = ((run kb (onIntersectObject kb st b).1 evs).1, []) :=
  falsyPressStuck kb st b evs hb hfresh hpend hfalsy

/-- Witness for C10: a state caching rest position 0 for the power
button; the press flips the power on, and even after the completion
event fires the button stays stuck and a further press is a no-op. -/
theorem C10_falsyRestStuck_w :
    (onIntersectObject wEmpty wZeroState wPowerButton).1.powerOn = true ∧
    "powerButton" ∈
      (onIntersectObject wEmpty wZeroState wPowerButton).1.pressedButtons ∧
    (∀ nm d y, Command.animateTo nm d y ∉
      (onIntersectObject wEmpty wZeroState wPowerButton).2) ∧
    (onIntersectObject wEmpty wZeroState wPowerButton).1.powerAnimPending
      = none ∧
    (run wEmpty (onIntersectObject wEmpty wZeroState wPowerButton).1
      [Event.animDone]).1.powerOn = true ∧
    onIntersectObject wEmpty
        (run wEmpty (onIntersectObject wEmpty wZeroState wPowerButton).1
          [Event.animDone]).1 wPowerButton
      = ((run wEmpty (onIntersectObject wEmpty wZeroState wPowerButton).1
          [Event.animDone]).1, []) := by
  have h := C10_falsyRestStuck wEmpty wZeroState wPowerButton
    [Event.animDone] rfl (by simp [wZeroState]) rfl (Or.inr rfl)
  simpa [wZeroState] using h

/-- C5 counterexample: constructed from a scene missing the power button
node, pressing a node named powerButton is not a no-op: the very first
press flips PowerState from off to on, contradicting the claim that
PowerState is not altered. -/
theorem C5_missingPB_cex :
    wEmpty.getByName "powerButton" = none ∧
    (initState wEmpty).powerOn = false ∧
    (onIntersectObject wEmpty (initState wEmpty) wPowerButton).1.powerOn
      = true := by
  refine ⟨rfl, rfl, ?_⟩
  rfl

/-- C5 (amended): constructed from a scene in which the power button node
is absent (so no rest position is recorded for it), pressing a node named
powerButton never crashes (every operation is total) and never issues an
animation command; contrary to the original claim, the first such press
does flip PowerState to on and inserts powerButton into
PressedButtonSet, after which every further power-button press is a
no-op and PowerState never changes again. -/
theorem C5_missingPB (kb : Obj) (b : Obj) (evs : List Event)
    (habs : kb.getByName "powerButton" = none)
    (hb : b.name = "powerButton") :
    (onIntersectObject kb (initState kb) b).1.powerOn = true ∧
    "powerButton" ∈
      (onIntersectObject kb (initState kb) b).1.pressedButtons ∧
    (∀ nm d y,
      Command.animateTo nm d y ∉ (onIntersectObject kb (initState kb) b).2) ∧
    (run kb (onIntersectObject kb (initState kb) b).1 evs).1.powerOn
      = true ∧
    onIntersectObject kb
        (run kb (onIntersectObject kb (initState kb) b).1 evs).1 b
      = ((run kb (onIntersectObject kb (initState kb) b).1 evs).1, []) := by
  have hlook : (initState kb).restPositions.lookup "powerButton" = none := by
    rw [initState_restPositions]
    exact setup_lookup_pb_none habs
  have h := falsyPressStuck kb (initState kb) b evs hb
    (by simp [initState_pressedButtons]) (initState_pending kb)
    (Or.inl hlook)
  exact ⟨h.1, h.2.1, h.2.2.1, h.2.2.2.2.1, h.2.2.2.2.2⟩

/-- Witness for C5: the empty scene has no power button node; pressing
the powerButton-named node turns the power on and a later press after a
release event is still a no-op. -/
theorem C5_missingPB_w :
    (onIntersectObject wEmpty (initState wEmpty) wPowerButton).1.powerOn
      = true ∧
    "powerButton" ∈
      (onIntersectObject wEmpty (initState wEmpty) wPowerButton).1.pressedButtons ∧
    (∀ nm d y, Command.animateTo nm d y ∉
      (onIntersectObject wEmpty (initState wEmpty) wPowerButton).2) ∧
    (run wEmpty (onIntersectObject wEmpty (initState wEmpty) wPowerButton).1
      [Event.pointerUp]).1.powerOn = true ∧
    onIntersectObject wEmpty
        (run wEmpty
          (onIntersectObject wEmpty (initState wEmpty) wPowerButton).1
          [Event.pointerUp]).1 wPowerButton
      = ((run wEmpty
          (onIntersectObject wEmpty (initState wEmpty) wPowerButton).1
          [Event.pointerUp]).1, []) :=
  C5_missingPB wEmpty wPowerButton [Event.pointerUp] rfl rfl

/-- C3: a single resetKeys call empties PressedKeySet entirely in one
go, and for every note identifier it contained (each held at most once),
whose key node is present in the scene and whose rest position is
cached, it issues exactly one audio release command and exactly one
animation command whose target is that cached rest position. -/
theorem C3_releaseAll (kb : Obj) (st : KMState)
    (hnd : st.pressedKeys.Nodup)
    (hok : ∀ key ∈ st.pressedKeys,
      (∃ o, kb.getByName ("Key_" ++ key) = some o) ∧
      (∃ r, st.restPositions.lookup key = some r)) :
    (resetKeys kb st).1.pressedKeys = [] ∧
    (∀ key ∈ st.pressedKeys,
      (resetKeys kb st).2.count (Command.release key) = 1 ∧
      (∀ r, st.restPositions.lookup key = some r →
        (resetKeys kb st).2.count
          (Command.animateTo ("Key_" ++ key) (3/10) r) = 1)) := by
  refine ⟨by rw [resetKeys_fst], ?_⟩
  intro key hmem
  obtain ⟨⟨o, ho⟩, ⟨r0, hr0⟩⟩ := hok key hmem
  constructor
  · exact count_flatMap_release hnd hmem
  · intro r hr
    exact count_flatMap_animate hnd hmem ho hr

/-- Witness for C3: releasing with C3 and the sharp C#3 held in the
sample scene empties the pressed list and issues exactly one release and
one return-to-rest animation per note. -/
theorem C3_releaseAll_w :
    (resetKeys wKeyboard wPressedState).1.pressedKeys = [] ∧
    (resetKeys wKeyboard wPressedState).2.count (Command.release "C3")
      = 1 ∧
    (resetKeys wKeyboard wPressedState).2.count
      (Command.animateTo "Key_C3" (3/10) 1) = 1 ∧
    (resetKeys wKeyboard wPressedState).2.count (Command.release "C#3")
      = 1 ∧
    (resetKeys wKeyboard wPressedState).2.count
      (Command.animateTo "Key_C#3" (3/10) 2) = 1 := by
  have h := C3_releaseAll wKeyboard wPressedState (by simp [wPressedState])
    (by
      intro key hk
      simp [wPressedState] at hk
      rcases hk with rfl | rfl
      · exact ⟨⟨Obj.mk "Key_C3" 1 [], rfl⟩, ⟨1, lookup_wkb_C3⟩⟩
      · exact ⟨⟨Obj.mk "Key_C#3" 2 [], rfl⟩, ⟨2, lookup_wkb_CS3⟩⟩)
  have hm1 : ("C3" : String) ∈ wPressedState.pressedKeys := by
    simp [wPressedState]
  have hm2 : ("C#3" : String) ∈ wPressedState.pressedKeys := by
    simp [wPressedState]
  exact ⟨h.1, (h.2 "C3" hm1).1, (h.2 "C3" hm1).2 1 lookup_wkb_C3,
         (h.2 "C#3" hm2).1, (h.2 "C#3" hm2).2 2 lookup_wkb_CS3⟩

/-- C1 counterexample: with the power off, the one-press sequence on the
Key_C3 node is accepted (C3 is added to PressedKeySet and its depression
animation is issued), yet the audio attack command for C3 is issued zero
times rather than exactly once: whether the attack fires depends on
PowerState, which the claim does not account for. -/
theorem C1_pressOnce_cex :
    (run wKeyboard (initState wKeyboard)
      [Event.intersect wKeyC3]).1.pressedKeys = ["C3"] ∧
    (run wKeyboard (initState wKeyboard)
      [Event.intersect wKeyC3]).2.count (Command.attack "C3") = 0 := by
  constructor <;>
    simp [run_cons, run_nil, step_intersect, onIntersectObject, pressKey,
      initState, setup_wKeyboard, wKeyC3, Obj.name, keyNoteOf, strContains,
      containsSeq, leadsWith, splitOnUnderscore, List.lookup,
      List.count_cons]

/-- C1 (amended): for every nonempty sequence of presses of the same key
node, resolving to a note not yet pressed, without an intervening
release, the note identifier is added to PressedKeySet exactly once and
the audio attack command for it is issued exactly once when PowerState
is on at the press and zero times when it is off; and at every reachable
state a note identifier appears in PressedKeySet at most once. -/
theorem C1_pressOnce (kb : Obj) (st : KMState) (o : Obj) (nm : String)
    (n : Nat) (hname : o.name ≠ "powerButton")
    (hkey : strContains o.name "Key" = true)
    (hn : keyNoteOf o.name = some nm) (hf : nm ∉ st.pressedKeys) :
    ((run kb st (List.replicate (n+1) (Event.intersect o))).2.count
        (Command.attack nm) = if st.powerOn then 1 else 0) ∧
    ((run kb st (List.replicate (n+1)
        (Event.intersect o))).1.pressedKeys.count nm = 1) ∧
    (∀ st2, Reachable kb st2 → ∀ x, st2.pressedKeys.count x ≤ 1) := by
  have hstep1 : step kb st (Event.intersect o) = pressKey st o := by
    rw [step_intersect, onIntersect_key hname hkey]
  have hfr := pressKey_fresh hn hf
  have hmem : nm ∈ (pressKey st o).1.pressedKeys := by simp [hfr]
  have hnoop : step kb (pressKey st o).1 (Event.intersect o)
      = ((pressKey st o).1, []) := by
    rw [step_intersect, onIntersect_key hname hkey]
    exact pressKey_memNote hn hmem
  have hrest := run_replicate_noop hnoop n
  rw [List.replicate_succ, run_cons, hstep1, hrest]
  refine ⟨?_, ?_,
    fun st2 h2 x => List.nodup_iff_count_le_one.mp (reach_nodup h2) x⟩
  · rcases hr : st.restPositions.lookup nm with _ | r <;>
      cases hp : st.powerOn <;>
        simp [hfr, hr, hp, List.count_cons, List.count_append]
  · simp [hfr, List.count_append, List.count_cons,
      List.count_eq_zero.mpr hf]

/-- Witness for C1: pressing the Key_C3 node twice from the fresh state
(power off) adds C3 once and issues zero attacks. -/
theorem C1_pressOnce_w :
    ((run wKeyboard (initState wKeyboard)
        (List.replicate 2 (Event.intersect wKeyC3))).2.count
        (Command.attack "C3") = 0) ∧
    ((run wKeyboard (initState wKeyboard)
        (List.replicate 2
          (Event.intersect wKeyC3))).1.pressedKeys.count "C3" = 1) ∧
    (∀ st2, Reachable wKeyboard st2 → ∀ x, st2.pressedKeys.count x ≤ 1)
    := by
  have h := C1_pressOnce wKeyboard (initState wKeyboard) wKeyC3 "C3" 1
    (by decide) (by decide) (by decide) (by simp [initState_pressedKeys])
  simpa [initState_powerOn] using h

/-- C4 counterexample: a key press accepted by the key path from a state
with the power on but no cached rest position for the note appends C3
and issues the audio attack, but no animation command at all: the
visual animation is not issued for every accepted key press. -/
theorem C4_audioGate_cex :
    (onIntersectObject wEmpty wOnState wKeyC3).1.pressedKeys = ["C3"] ∧
    (onIntersectObject wEmpty wOnState wKeyC3).2
      = [Command.attack "C3"] := by
  exact ⟨rfl, rfl⟩

/-- C4 (amended): for every key press accepted by the key path with a
cached rest position, the visual depression animation command is issued
(the statement needs no hypothesis on PowerState), while the audio
attack command is issued if and only if PowerState is on at the moment
of the press; and after the press, as long as no release event occurs,
no further audio attack for that note is ever issued, so toggling the
power on later never retroactively triggers audio for the already
pressed key. -/
theorem C4_audioGate (kb : Obj) (st : KMState) (o : Obj) (nm : String)
    (r : ℚ) (evs : List Event) (hname : o.name ≠ "powerButton")
    (hkey : strContains o.name "Key" = true)
    (hn : keyNoteOf o.name = some nm) (hf : nm ∉ st.pressedKeys)
    (hr : st.restPositions.lookup nm = some r)
    (hnu : ∀ e ∈ evs, e ≠ Event.pointerUp) :
    (∃ y, Command.animateTo o.name (3/10) y
      ∈ (onIntersectObject kb st o).2) ∧
    (Command.attack nm ∈ (onIntersectObject kb st o).2
      ↔ st.powerOn = true) ∧
    Command.attack nm ∉ (run kb (onIntersectObject kb st o).1 evs).2 := by
  rw [onIntersect_key hname hkey]
  have hfr := pressKey_fresh hn hf
  refine ⟨⟨r - (if strContains nm "#" then 5/1000 else 1/100),
    by simp [hfr, hr]⟩, ?_, ?_⟩
  · cases hp : st.powerOn <;> simp [hfr, hr, hp]
  · have hmem : nm ∈ (pressKey st o).1.pressedKeys := by simp [hfr]
    exact (run_heldKey hmem hnu).2

/-- Witness for C4: pressing Key_C3 with the power off issues its
animation and no attack, and toggling the power on afterwards still
produces no attack for C3. -/
theorem C4_audioGate_w :
    (∃ y, Command.animateTo "Key_C3" (3/10) y ∈
      (onIntersectObject wKeyboard (initState wKeyboard) wKeyC3).2) ∧
    (Command.attack "C3" ∈
      (onIntersectObject wKeyboard (initState wKeyboard) wKeyC3).2 ↔
      (initState wKeyboard).powerOn = true) ∧
    Command.attack "C3" ∉
      (run wKeyboard
        (onIntersectObject wKeyboard (initState wKeyboard) wKeyC3).1
        [Event.intersect wPowerButton]).2 := by
  have h := C4_audioGate wKeyboard (initState wKeyboard) wKeyC3 "C3" 1
    [Event.intersect wPowerButton] (by decide) (by decide) (by decide)
    (by simp [initState_pressedKeys]) lookup_wkb_C3
    (by
      intro e he
      simp at he
      subst he
      exact fun hh => Event.noConfusion hh)
  simpa [wKeyC3, Obj.name] using h

end Keyboardist
